import Mathlib

/-!
Verification of the track-your-regions data pipeline.

Shallow embedding of the two core programs:
* `src/db/init-db.py` — GADM hierarchy construction (`GADMProcessor`):
  per-record level resolution, path-keyed deduplication, single-child merging.
* `src/db/precalculate-geometries.py` — bottom-up geometry aggregation:
  depth scheduling, the coverage-union fast path with robust fallback,
  and the per-division commit discipline of the worker threads.

Python strings are modelled as `String` with `""` playing the role of both
`None` and the empty string (they are interchangeable in every truthiness
test and equality comparison the source performs on level values).
Geometries are opaque tokens (`Nat`); the PostGIS primitives the source
consumes as a black box are either the identity on tokens
(`validate_multipolygon`) or explicit parameters (`GeomOps`).
-/

namespace TrackRegions

/-- The GADM level columns, in the fixed order of `GADMProcessor.GEO_LEVELS`
(init-db.py lines 160-167). -/
inductive Level
  | CONTINENT | SUBCONT | SOVEREIGN | GOVERNEDBY | COUNTRY | REGION
  | NAME0 | NAME1 | NAME2 | NAME3 | NAME4 | NAME5
deriving DecidableEq, Repr, Fintype

/-- `SUBCOUNTRY_LEVELS = ["SOVEREIGN", "GOVERNEDBY"]` (init-db.py line 161). -/
def SUBCOUNTRY_LEVELS : List Level := [Level.SOVEREIGN, Level.GOVERNEDBY]

/-- `GEO_LEVELS` (init-db.py lines 162-167): continent, subcontinent, the two
subcountry levels, country, region, then the six generic name levels. -/
def GEO_LEVELS : List Level :=
  [Level.CONTINENT, Level.SUBCONT] ++ SUBCOUNTRY_LEVELS
    ++ [Level.COUNTRY, Level.REGION]
    ++ [Level.NAME0, Level.NAME1, Level.NAME2, Level.NAME3, Level.NAME4, Level.NAME5]

/-- The index of a level in `GEO_LEVELS` (`self.GEO_LEVELS.index(current_level)`,
init-db.py line 385). -/
def levelIdx : Level → Nat
  | .CONTINENT => 0 | .SUBCONT => 1 | .SOVEREIGN => 2 | .GOVERNEDBY => 3
  | .COUNTRY => 4 | .REGION => 5
  | .NAME0 => 6 | .NAME1 => 7 | .NAME2 => 8 | .NAME3 => 9 | .NAME4 => 10 | .NAME5 => 11

/-- A geometry value: an opaque WKB token.  The spec (§1, non-goals) treats the
spatial primitives as a black box, so only identity of tokens matters. -/
abbrev Geom := Nat

/-- One GADM source record: the twelve level columns plus the `UID` column
(init-db.py line 168, `PROPERTIES = GEO_LEVELS + ["UID"]`).  An empty string
stands for a missing (falsy) value. -/
structure Record where
  field : Level → String
  uid : Nat

/-- The subcountry level selected for a record: the first of
`SUBCOUNTRY_LEVELS` whose value is non-empty (init-db.py lines 292-296). -/
def subcountryLevel (r : Record) : Option Level :=
  SUBCOUNTRY_LEVELS.find? (fun l => r.field l ≠ "")

/-- `GADMProcessor._has_next_level` (init-db.py lines 382-391): is any level
strictly after `l` in `GEO_LEVELS` non-empty in the record? -/
def hasNextLevel (r : Record) (l : Level) : Bool :=
  (GEO_LEVELS.drop (levelIdx l + 1)).any (fun l2 => r.field l2 ≠ "")

/-- The skip rules of `_process_row` (init-db.py lines 304-331): a level is
skipped when its value is empty (line 306), when it is a subcountry level that
is either not the selected one or equal to the country name (lines 310-314),
or when it is `NAME_0` with a value equal to the country name (lines 317-331;
both sub-branches of that case leave the path untouched). -/
def skippedByResolver (r : Record) (l : Level) : Bool :=
  r.field l = "" ||
  (SUBCOUNTRY_LEVELS.contains l &&
    (subcountryLevel r ≠ some l || r.field l = r.field Level.COUNTRY)) ||
  (l = Level.NAME0 && r.field Level.NAME0 = r.field Level.COUNTRY)

/-- The resolver output for one record: the levels of `GEO_LEVELS` that reach
the path-building branch of `_process_row` (init-db.py lines 333-347), each
with its name and the `has_children` flag the code attaches there
(line 338). -/
def emittedLevels (r : Record) : List (Level × String × Bool) :=
  GEO_LEVELS.filterMap (fun l =>
    if skippedByResolver r l then none else some (l, r.field l, hasNextLevel r l))

/-- The ordered name sequence a record emits. -/
def emittedNames (r : Record) : List String :=
  (emittedLevels r).map (fun t => t.2.1)

/-- The PathKey: `"_".join(division_path_parts)` (init-db.py line 335). -/
def pathKey (names : List String) : String :=
  String.intercalate "_" names

/-- The spec's reading of the `has_children` flag (spec §4.1, last sentence):
true iff some level appearing later in the fixed order that is **not itself
skipped** by the resolver's skip rules is non-empty in the record.  (A level
that survives the skip rules is automatically non-empty.) -/
def specHasChildren (r : Record) (l : Level) : Bool :=
  (GEO_LEVELS.drop (levelIdx l + 1)).any (fun l2 => !skippedByResolver r l2)

/-- One row of the `administrative_divisions` table (init-db.py lines 396-406):
id, name, parent_id, has_children, gadm_uid, geom. -/
structure Row where
  id : Nat
  name : String
  parent_id : Option Nat
  has_children : Bool
  gadm_uid : Option Nat
  geom : Option Geom
deriving DecidableEq, Repr

/-- The in-memory `Division` object (init-db.py lines 144-154): name, id,
parent id/path/name, own path, running child count and the single-child
back-reference (stored as the child's path — one object per path). -/
structure DivisionObj where
  name : String
  id : Nat
  parent_id : Option Nat
  parent_path : Option String
  parent_name : Option String
  path : String
  children_num : Nat
  single_child : Option String
deriving DecidableEq, Repr

/-- The mutable state of a `GADMProcessor` run: the PostgreSQL table rows (in
insertion order), the next serial id, every `Division` object ever created
(keyed by its immutable path; objects survive removal from the dedup map
because `single_children` keeps references), the set of paths currently in
`existing_divisions`, and the `single_children` list (paths, in discovery
order). -/
structure BuildState where
  db : List Row
  nextId : Nat
  objs : List (String × DivisionObj)
  existing : List String
  single_children : List String
deriving Repr

def initState : BuildState := ⟨[], 1, [], [], []⟩

/-- Look up a `Division` object by path (object store, never deleted). -/
def getObj (st : BuildState) (p : String) : Option DivisionObj :=
  (st.objs.find? (fun e => e.1 = p)).map (fun e => e.2)

/-- Mutate the `Division` object stored at a path. -/
def setObj (st : BuildState) (p : String) (o : DivisionObj) : BuildState :=
  { st with objs := st.objs.map (fun e => if e.1 = p then (p, o) else e) }

/-- `self.existing_divisions.get(path)`: an object is found only while its
path is still a key of the dedup map (entries are deleted by
`merge_single_children`, init-db.py line 524). -/
def existingGet (st : BuildState) (p : String) : Option DivisionObj :=
  if st.existing.contains p then getObj st p else none

/-- Python truthiness of an optional integer id (`if last_parent_id`,
init-db.py line 323): `None` and `0` are falsy. -/
def optNatTruthy : Option Nat → Bool
  | some n => n ≠ 0
  | none => false

/-- Python truthiness of an optional string (`if last_parent_path`,
init-db.py line 361): `None` and `""` are falsy. -/
def optStrTruthy : Option String → Bool
  | some s => s ≠ ""
  | none => false

/-- `validate_multipolygon(ST_GeomFromWKB(...))`: black-box geometry repair
(spec §1 declares the spatial primitives out of scope), modelled as the
identity on opaque geometry tokens. -/
def validate_multipolygon (g : Geom) : Geom := g

/-- The run configuration: the `-g` flag (`include_geometry`), the `-f` flag's
negation (`postprocess`), and the pre-loaded `self.geometries` map
(uid → WKB, init-db.py lines 209-231; empty when geometry is excluded). -/
structure Config where
  includeGeometry : Bool
  postprocess : Bool
  geometries : Nat → Option Geom

/-- `GADMProcessor._insert_division` (init-db.py lines 393-408): insert a row
with the next serial id and return the id; the geometry is stored (validated)
only when a geometry was passed and geometry handling is on. -/
def insert_division (cfg : Config) (st : BuildState) (name : String)
    (parent_id : Option Nat) (has_children : Bool)
    (gadm_uid : Option Nat) (geom : Option Geom) : Nat × BuildState :=
  let storedGeom : Option Geom :=
    if geom.isSome && cfg.includeGeometry then geom.map validate_multipolygon else none
  let row : Row :=
    { id := st.nextId, name := name, parent_id := parent_id,
      has_children := has_children, gadm_uid := gadm_uid, geom := storedGeom }
  (st.nextId, { st with db := st.db ++ [row], nextId := st.nextId + 1 })

/-- The per-record loop variables of `_process_row` (init-db.py
lines 298-301): the accumulated path parts and the last created/reused
division's id, path and name. -/
structure LoopState where
  parts : List String
  last_parent_id : Option Nat
  last_parent_path : Option String
  last_parent_name : Option String

/-- One iteration of the level loop of `_process_row` (init-db.py
lines 304-380): skip empty levels, skip the unused or country-redundant
subcountry level, handle the country-redundant `NAME_0` (terminal update of
the deepest emitted division, lines 317-331), otherwise extend the path and
create or reuse the division, maintaining the single-child bookkeeping
(lines 360-373). -/
def processLevel (cfg : Config) (r : Record) (acc : LoopState × BuildState)
    (l : Level) : LoopState × BuildState :=
  let ls := acc.1
  let st := acc.2
  let name := r.field l
  if name = "" then acc
  else if SUBCOUNTRY_LEVELS.contains l &&
      (subcountryLevel r ≠ some l || name = r.field Level.COUNTRY) then acc
  else if l = Level.NAME0 && name = r.field Level.COUNTRY then
    if hasNextLevel r l then acc
    else
      -- terminal update: attach uid and geometry to the deepest emitted
      -- division and mark it a leaf (lines 320-331)
      match ls.last_parent_id,
        (if cfg.includeGeometry then cfg.geometries r.uid else none) with
      | some pid, some g =>
        if pid ≠ 0 then
          (ls, { st with db := st.db.map (fun row =>
            if row.id = pid then
              { row with gadm_uid := some r.uid,
                         geom := some (validate_multipolygon g),
                         has_children := false }
            else row) })
        else acc
      | _, _ => acc
  else
    let parts := ls.parts ++ [name]
    let path := pathKey parts
    let hasC := hasNextLevel r l
    match existingGet st path with
    | some div =>
      -- reuse the mapped division (lines 374-376)
      (⟨parts, some div.id, some path, some name⟩, st)
    | none =>
      -- create a new division (lines 341-357)
      let uidArg : Option Nat := if hasC then none else some r.uid
      let geomArg : Option Geom := if hasC then none else cfg.geometries r.uid
      let res := insert_division cfg st name ls.last_parent_id hasC uidArg geomArg
      let divId := res.1
      let st1 := res.2
      let div : DivisionObj :=
        ⟨name, divId, ls.last_parent_id, ls.last_parent_path,
          ls.last_parent_name, path, 0, none⟩
      let st2 := { st1 with objs := st1.objs ++ [(path, div)],
                            existing := st1.existing ++ [path] }
      -- single-child tracking (lines 360-373)
      let st3 :=
        if cfg.postprocess && optStrTruthy ls.last_parent_path then
          match ls.last_parent_path with
          | some pp =>
            match existingGet st2 pp with
            | some parentDiv =>
              let cnt := parentDiv.children_num + 1
              if cnt = 1 then
                let st' := setObj st2 pp
                  { parentDiv with children_num := cnt, single_child := some path }
                { st' with single_children := st'.single_children ++ [path] }
              else if cnt = 2 then
                let st' := setObj st2 pp
                  { parentDiv with children_num := cnt, single_child := none }
                match parentDiv.single_child with
                | some sib => { st' with single_children := st'.single_children.erase sib }
                | none => st'
              else setObj st2 pp { parentDiv with children_num := cnt }
            | none => st2
          | none => st2
        else st2
      (⟨parts, some divId, some path, some name⟩, st3)

/-- `GADMProcessor._process_row` (init-db.py lines 289-380): run the level
loop over `GEO_LEVELS` with fresh per-record loop variables. -/
def processRow (cfg : Config) (st : BuildState) (r : Record) : BuildState :=
  (GEO_LEVELS.foldl (processLevel cfg r) (⟨[], none, none, none⟩, st)).2

/-- Accumulator for `merge_single_children`: the evolving in-memory state plus
the batched `(new_parent_id, child_id)` updates and parent-id deletes
(init-db.py lines 502-503). -/
structure MergeAcc where
  st : BuildState
  updates : List (Option Nat × Nat)
  deletes : List Nat

/-- One iteration of the `merge_single_children` loop (init-db.py
lines 505-526): if the single child has its parent's name, re-point it to the
grandparent (looked up through the **current** in-memory snapshot, so earlier
merges in the same pass are visible), record the batched update and delete,
and drop the old parent from the dedup map. -/
def mergeStep (acc : MergeAcc) (scPath : String) : MergeAcc :=
  match getObj acc.st scPath with
  | none => acc
  | some sc =>
    if some sc.name = sc.parent_name then
      match sc.parent_path with
      | none => acc
      | some pp =>
        match existingGet acc.st pp with
        | none => acc
        | some oldParent =>
          let newParent : Option DivisionObj :=
            match oldParent.parent_path with
            | some gpp => if gpp ≠ "" then existingGet acc.st gpp else none
            | none => none
          let newPid : Option Nat := newParent.map (fun d => d.id)
          let newPPath : Option String := newParent.map (fun d => d.path)
          let st1 := setObj acc.st scPath
            { sc with parent_id := newPid, parent_path := newPPath }
          let st2 := { st1 with existing := st1.existing.erase oldParent.path }
          { st := st2,
            updates := acc.updates ++ [(newPid, sc.id)],
            deletes := acc.deletes ++ [oldParent.id] }
    else acc

/-- The batched `UPDATE ... SET parent_id = %s WHERE id = %s` pass
(init-db.py lines 529-535). -/
def applyUpdates (db : List Row) (ups : List (Option Nat × Nat)) : List Row :=
  ups.foldl (fun d u =>
    d.map (fun r => if r.id = u.2 then { r with parent_id := u.1 } else r)) db

/-- The batched `DELETE ... WHERE id = %s` pass (init-db.py lines 538-544). -/
def applyDeletes (db : List Row) (dels : List Nat) : List Row :=
  dels.foldl (fun d i => d.filter (fun r => r.id ≠ i)) db

/-- `GADMProcessor.merge_single_children` (init-db.py lines 482-547): walk the
`single_children` list in discovery order, then apply the batched re-parent
updates followed by the batched deletes. -/
def merge_single_children (cfg : Config) (st : BuildState) : BuildState :=
  if !cfg.postprocess then st
  else
    let acc := st.single_children.foldl mergeStep ⟨st, [], []⟩
    { acc.st with db := applyDeletes (applyUpdates acc.st.db acc.updates) acc.deletes }

/-- The construction pipeline of `main` (init-db.py lines 615-632): process
all records, then merge redundant single children. -/
def runPipeline (cfg : Config) (records : List Record) : BuildState :=
  merge_single_children cfg (records.foldl (processRow cfg) initState)

/-! ### precalculate-geometries.py: depth scheduling -/

/-- The parent pointer read from the table (`d.parent_id` joined on id,
precalculate-geometries.py lines 81-83). -/
def parentOf (db : List Row) (i : Nat) : Option Nat :=
  match db.find? (fun r => r.id = i) with
  | none => none
  | some r => r.parent_id

/-- Fuel-bounded walk of the parent chain, mirroring the recursive CTE
`division_depth` (precalculate-geometries.py lines 74-84): a root
(`parent_id IS NULL`) has depth 0, a child has its parent's depth plus one;
rows not reachable from a root (dangling parents, cycles) get no depth. -/
def depthOfAux (db : List Row) : Nat → Nat → Option Nat
  | 0, _ => none
  | fuel + 1, i =>
    match db.find? (fun r => r.id = i) with
    | none => none
    | some r =>
      match r.parent_id with
      | none => some 0
      | some p => (depthOfAux db fuel p).map (· + 1)

/-- The depth the recursive CTE assigns to a division. -/
def depthOf (db : List Row) (i : Nat) : Option Nat :=
  depthOfAux db (db.length + 1) i

/-- The rows the scheduler selects: `has_children = true AND geom IS NULL`
(precalculate-geometries.py lines 88-89). -/
def schedTargets (db : List Row) : List Row :=
  db.filter (fun r => r.has_children && r.geom = none)

/-- The scheduled group at one depth: the selected rows whose CTE depth is
`d`, or nothing when that set is empty. -/
def depthGroupAt (db : List Row) (d : Nat) : Option (Nat × List Row) :=
  if ((schedTargets db).filter (fun r => depthOf db r.id = some d)).isEmpty then none
  else some (d, (schedTargets db).filter (fun r => depthOf db r.id = some d))

/-- `get_non_leaf_divisions_by_depth` (precalculate-geometries.py
lines 66-102): the selected rows grouped by their CTE depth, groups ordered by
depth **descending** (the `ORDER BY dd.depth DESC` plus the insertion-ordered
grouping dict); empty depths produce no group. -/
def depthGroups (db : List Row) : List (Nat × List Row) :=
  (List.range (db.length + 1)).reverse.filterMap (depthGroupAt db)

/-- The k-step parent chain from a division. -/
def ancChain (db : List Row) : Nat → Nat → Option Nat
  | i, 0 => some i
  | i, k + 1 =>
    match parentOf db i with
    | none => none
    | some p => ancChain db p k

/-- `a` is a (strict) ancestor of `b`: some positive number of parent steps
from `b` reaches `a`. -/
def isAncestor (db : List Row) (a b : Nat) : Prop :=
  ∃ k, ancChain db b (k + 1) = some a

/-! ### precalculate-geometries.py: geometry aggregation -/

/-- The black-box spatial primitives consumed by the aggregator (spec §6):
the topology-aware aggregate union (`ST_CoverageUnion`; `none` models the
exception of its fast path), the robust union (`ST_Union(ST_MakeValid(...))`
as one aggregate over the child geometries), repair (`validate_multipolygon`),
point counting (`ST_NPoints`) and tolerance-keyed simplification
(`ST_SimplifyPreserveTopology`). -/
structure GeomOps where
  coverageUnion : List Geom → Option Geom
  unionMakeValid : List Geom → Geom
  validate : Geom → Geom
  npoints : Geom → Nat
  simplifyTol : Nat → Geom → Geom

/-- The geometries of a division's direct children that have geometry
(`WHERE parent_id = %s AND geom IS NOT NULL`, precalculate-geometries.py
lines 141-144). -/
def childGeoms (db : List Row) (i : Nat) : List Geom :=
  (db.filter (fun r => r.parent_id = some i)).filterMap (fun r => r.geom)

/-- The merged geometry of `calculate_merged_geometry` (precalculate-geometries.py
lines 136-168): the SQL aggregate over zero qualifying child rows is NULL;
otherwise the fast `ST_CoverageUnion` result, or — when that path raises and
is rolled back to the savepoint — the robust `ST_Union(ST_MakeValid(...))`. -/
def mergedGeom (ops : GeomOps) (cs : List Geom) : Option Geom :=
  if cs.isEmpty then none
  else
    match ops.coverageUnion cs with
    | some g => some g
    | none => some (ops.unionMakeValid cs)

/-- The `UPDATE ... SET geom = validate_multipolygon(merged_geom) WHERE id = %s
AND merged_geom IS NOT NULL` write (precalculate-geometries.py lines 146-151). -/
def setRowGeom (db : List Row) (i : Nat) (g : Geom) : List Row :=
  db.map (fun r => if r.id = i then { r with geom := some g } else r)

/-- `calculate_merged_geometry` (precalculate-geometries.py lines 105-178):
merge the direct children's geometries into the division's `geom` column and
report whether any row was updated (`cursor.rowcount > 0`).  A NULL merge
(no child had geometry) updates nothing. -/
def calculate_merged_geometry (ops : GeomOps) (db : List Row) (i : Nat) :
    List Row × Bool :=
  match mergedGeom ops (childGeoms db i) with
  | none => (db, false)
  | some g => (setRowGeom db i (ops.validate g), db.any (fun r => r.id = i))

/-- Modelled from the spec (§4.5 step 3), for comparison with the code — this
behaviour is **not** implemented anywhere under src/: after merging, "if the
merged result's point count exceeds a threshold, apply simplification with a
tolerance chosen from a staged table keyed by point-count bucket", and store
the simplified merge. -/
def specStoredGeometry (ops : GeomOps) (threshold : Nat) (tolTable : Nat → Nat)
    (cs : List Geom) : Option Geom :=
  (mergedGeom ops cs).map (fun g =>
    if threshold < ops.npoints g then ops.simplifyTol (tolTable (ops.npoints g)) g
    else g)

/-! ### precalculate-geometries.py: commit discipline -/

/-- Observable store events of the aggregation phase: aggregating one
division's geometry, and committing the connection's transaction. -/
inductive MergeEv
  | agg (i : Nat)
  | commit
deriving DecidableEq, Repr

/-- The event trace of `_merge_worker` (precalculate-geometries.py
lines 181-245): for every division of its chunk, aggregate and then
`conn.commit()` (line 233) before moving to the next division. -/
def merge_worker_trace (chunk : List Nat) : List MergeEv :=
  (chunk.map (fun i => [MergeEv.agg i, MergeEv.commit])).flatten

/-- The event trace of the sequential (single-worker) path of
`precalculate_all_geometries` (precalculate-geometries.py lines 287-292):
aggregate every division of the level on the main connection, then a single
`conn.commit()` after the loop. -/
def sequential_level_trace (ids : List Nat) : List MergeEv :=
  ids.map MergeEv.agg ++ [MergeEv.commit]

/-- Commit granularity of one division: every aggregation event is immediately
followed by a commit event. -/
def commitAfterEachAgg : List MergeEv → Bool
  | [] => true
  | [MergeEv.agg _] => false
  | MergeEv.agg _ :: MergeEv.commit :: rest => commitAfterEachAgg rest
  | MergeEv.agg _ :: MergeEv.agg _ :: _ => false
  | MergeEv.commit :: rest => commitAfterEachAgg rest

/-! ### Concrete inputs used by the claims -/

/-- A run with geometry and postprocessing on, and a geometry store mapping
uid `n` to the WKB token `n * 10`. -/
def cfgRun : Config := ⟨true, true, fun n => some (n * 10)⟩

/-- A record with `COUNTRY = NAME_0 = "Samoa"` and nothing deeper. -/
def samoaRecord (uid : Nat) : Record :=
  { field := fun l =>
      match l with
      | .COUNTRY => "Samoa" | .NAME0 => "Samoa" | _ => "",
    uid := uid }

/-- A record with a continent prefix above `COUNTRY = NAME_0 = "Samoa"`. -/
def oceaniaSamoaRecord (uid : Nat) : Record :=
  { field := fun l =>
      match l with
      | .CONTINENT => "Oceania" | .COUNTRY => "Samoa" | .NAME0 => "Samoa" | _ => "",
    uid := uid }

/-- A record whose only non-empty levels after the continent are the two
subcountry levels: the non-selected one (`GOVERNEDBY`) is skipped by the
resolver, yet it is a later non-empty level. -/
def bothSubcountryRecord : Record :=
  { field := fun l =>
      match l with
      | .CONTINENT => "Atlantis" | .SOVEREIGN => "S" | .GOVERNEDBY => "G" | _ => "",
    uid := 3 }

/-- A record consisting of the single country `"X"`. -/
def countryOnlyRecord : Record :=
  { field := fun l => match l with | .COUNTRY => "X" | _ => "", uid := 1 }

/-- A record adding a child `"Y"` under country `"X"`. -/
def countryChildRecord : Record :=
  { field := fun l => match l with | .COUNTRY => "X" | .NAME0 => "Y" | _ => "", uid := 2 }

/-- A record whose single emitted name contains an underscore. -/
def underscoreNameRecord : Record :=
  { field := fun l => match l with | .COUNTRY => "A_B" | _ => "", uid := 1 }

/-- A record emitting the two names `"A"`, `"B"`. -/
def twoNameRecord : Record :=
  { field := fun l => match l with | .COUNTRY => "A" | .NAME0 => "B" | _ => "", uid := 2 }

/-! ### C1: single-child merge collapses identically-named chains -/

/-- C3: (first conjunct) for **every** input record whose `NAME_0` equals its
non-empty country name and that has no deeper non-empty level — whatever its
shallower levels — and whose geometry is available, the `NAME_0` iteration of
`_process_row` creates no new division in **any** construction state: it
leaves the serial id, the object store, the dedup map and the single-child
list untouched, and only updates the current deepest already-emitted division
(the one `last_parent_id` names), attaching the record's external uid and
geometry and setting its `has_children` flag to false.  (Second conjunct)
end to end, the Samoa-shaped record — bare, or under a continent prefix —
produces exactly one `"Samoa"` division with `has_children = false` and the
record's uid and geometry attached, never a `Samoa → Samoa` pair. -/
theorem claim_C3 :
    (∀ (cfg : Config) (r : Record) (ls : LoopState) (st : BuildState)
        (pid g : Nat),
      r.field Level.NAME0 = r.field Level.COUNTRY →
      r.field Level.COUNTRY ≠ "" →
      hasNextLevel r Level.NAME0 = false →
      cfg.includeGeometry = true →
      cfg.geometries r.uid = some g →
      ls.last_parent_id = some pid →
      pid ≠ 0 →
      processLevel cfg r (ls, st) Level.NAME0 =
        (ls, { st with db := st.db.map (fun row =>
          if row.id = pid then
            { row with gadm_uid := some r.uid,
                       geom := some (validate_multipolygon g),
                       has_children := false }
          else row) })) ∧
    (∀ (uid g : Nat) (geoms : Nat → Option Geom), geoms uid = some g →
      (runPipeline ⟨true, true, geoms⟩ [samoaRecord uid]).db =
        [⟨1, "Samoa", none, false, some uid, some g⟩] ∧
      (runPipeline ⟨true, true, geoms⟩ [oceaniaSamoaRecord uid]).db =
        [⟨1, "Oceania", none, true, none, none⟩,
         ⟨2, "Samoa", some 1, false, some uid, some g⟩]) := by
  constructor
  · intro cfg r ls st pid g hname hc hdeep hinc hgeo hlp hpid
    simp [processLevel, SUBCOUNTRY_LEVELS, hname, hc, hdeep, hinc, hgeo,
      hlp, hpid]
  · intro uid g geoms hg
    constructor
    · simp [runPipeline, processRow, GEO_LEVELS, SUBCOUNTRY_LEVELS,
        processLevel, samoaRecord, hasNextLevel, subcountryLevel, levelIdx,
        initState, insert_division, existingGet, getObj, setObj, optNatTruthy,
        optStrTruthy, validate_multipolygon, merge_single_children, mergeStep,
        applyUpdates, applyDeletes, pathKey, hg]
    · simp [runPipeline, processRow, GEO_LEVELS, SUBCOUNTRY_LEVELS,
        processLevel, oceaniaSamoaRecord, hasNextLevel, subcountryLevel,
        levelIdx, initState, insert_division, existingGet, getObj, setObj,
        optNatTruthy, optStrTruthy, validate_multipolygon,
        merge_single_children, mergeStep, applyUpdates, applyDeletes, pathKey,
        hg,
        show String.intercalate "_" ["Oceania"] = "Oceania" from rfl,
        show String.intercalate "_" ["Oceania", "Samoa"] = "Oceania_Samoa"
          from rfl]

/-- C3 witness: the end-to-end runs at uid 5 with geometry token 42, obtained
from the theorem with its hypothesis discharged there. -/
theorem claim_C3_witness :
    (runPipeline ⟨true, true, fun n => if n = 5 then some 42 else none⟩
        [samoaRecord 5]).db =
      [⟨1, "Samoa", none, false, some 5, some 42⟩] ∧
    (runPipeline ⟨true, true, fun n => if n = 5 then some 42 else none⟩
        [oceaniaSamoaRecord 5]).db =
      [⟨1, "Oceania", none, true, none, none⟩,
       ⟨2, "Samoa", some 1, false, some 5, some 42⟩] :=
  claim_C3.2 5 42 (fun n => if n = 5 then some 42 else none) (by decide)

/-! ### C4: the `has_children` flag ignores the skip rules -/

/-- Membership in the tail of `GEO_LEVELS` after a level is exactly having a
larger level index (checked over the finite enumeration). -/
theorem mem_geo_levels_drop (l l2 : Level) :
    l2 ∈ GEO_LEVELS.drop (levelIdx l + 1) ↔ levelIdx l < levelIdx l2 := by
  revert l l2; decide

/-- `_has_next_level` holds exactly when **some** later level of the fixed
order is non-empty — whether or not that later level is itself skipped. -/
theorem hasNextLevel_iff (r : Record) (l : Level) :
    hasNextLevel r l = true ↔ ∃ l2, levelIdx l < levelIdx l2 ∧ r.field l2 ≠ "" := by
  unfold hasNextLevel
  rw [List.any_eq_true]
  constructor
  · rintro ⟨l2, hmem, hne⟩
    exact ⟨l2, (mem_geo_levels_drop l l2).1 hmem, by simpa using hne⟩
  · rintro ⟨l2, hlt, hne⟩
    exact ⟨l2, (mem_geo_levels_drop l l2).2 hlt, by simpa using hne⟩

/-- C4 counterexample: in the record
`CONTINENT = "Atlantis", SOVEREIGN = "S", GOVERNEDBY = "G"` the selected
subcountry level `"S"` is emitted with `has_children = true` (the only later
non-empty level, `GOVERNEDBY`, is non-empty), yet every later non-empty level
is skipped by the resolver, so the claim demands `false`; the stored row for
`"S"` indeed carries `has_children = true`. -/
theorem claim_C4_counterexample :
    (Level.SOVEREIGN, "S", true) ∈ emittedLevels bothSubcountryRecord ∧
    specHasChildren bothSubcountryRecord Level.SOVEREIGN = false ∧
    (runPipeline cfgRun [bothSubcountryRecord]).db =
      [⟨1, "Atlantis", none, true, none, none⟩,
       ⟨2, "S", some 1, true, none, none⟩] := by
  decide

/-- C4 (amended): the `has_children` flag attached to an emitted level is true
iff some level appearing later in the fixed order is non-empty in the record —
with no regard to whether that later level is itself skipped by the resolver's
skip rules. -/
theorem claim_C4 (r : Record) (l : Level) (n : String) (b : Bool)
    (hmem : (l, n, b) ∈ emittedLevels r) :
    b = true ↔ ∃ l2, levelIdx l < levelIdx l2 ∧ r.field l2 ≠ "" := by
  unfold emittedLevels at hmem
  rw [List.mem_filterMap] at hmem
  obtain ⟨l0, _, heq⟩ := hmem
  by_cases hsk : skippedByResolver r l0 = true
  · simp [hsk] at heq
  · simp only [hsk, Bool.false_eq_true, if_false, Option.some.injEq,
      Prod.mk.injEq] at heq
    obtain ⟨hl, _, hb⟩ := heq
    subst hl
    rw [← hb]
    exact hasNextLevel_iff r _

/-- C4 witness: the amended statement applied to the emitted continent level
of the counterexample record. -/
theorem claim_C4_witness :
    true = true ↔ ∃ l2, levelIdx Level.CONTINENT < levelIdx l2 ∧
      bothSubcountryRecord.field l2 ≠ "" :=
  claim_C4 bothSubcountryRecord Level.CONTINENT "Atlantis" true (by decide)

/-! ### C5: `has_children` goes stale when a later record adds a child -/

/-- The spec's data-model invariant (§3): `has_children` is true iff at least
one division currently references the division as parent. -/
def hasChildrenConsistent (db : List Row) : Prop :=
  ∀ r ∈ db, (r.has_children = true ↔ ∃ c ∈ db, c.parent_id = some r.id)

instance (db : List Row) : Decidable (hasChildrenConsistent db) := by
  unfold hasChildrenConsistent; infer_instance

/-- C5: processing `[X]` and then `[X, Y]` stores `X` as a leaf
(`has_children = false`, set when `X` was a terminal record) and then hangs
`Y` under it without ever refreshing the flag, so after the full run —
including the merge pass — the store violates the claimed invariant. -/
theorem claim_C5 :
    (runPipeline cfgRun [countryOnlyRecord, countryChildRecord]).db =
      [⟨1, "X", none, false, some 1, some 10⟩,
       ⟨2, "Y", some 1, false, some 2, some 20⟩] ∧
    ¬ hasChildrenConsistent
        (runPipeline cfgRun [countryOnlyRecord, countryChildRecord]).db := by
  decide

/-! ### C9: commit granularity of the two aggregation paths -/

/-- C9 counterexample: the sequential (single-worker) path of
`precalculate_all_geometries` commits once **after** the whole level loop
(lines 289-292), so a two-division level is not committed per division. -/
theorem claim_C9_counterexample :
    sequential_level_trace [1, 2] =
      [MergeEv.agg 1, MergeEv.agg 2, MergeEv.commit] ∧
    commitAfterEachAgg (sequential_level_trace [1, 2]) = false := by
  decide

/-- C9 (amended): the worker-thread path commits immediately after every
division it aggregates, but the single-worker sequential path commits exactly
once per depth level, after all of the level's divisions. -/
theorem claim_C9 (chunk ids : List Nat) :
    commitAfterEachAgg (merge_worker_trace chunk) = true ∧
    (sequential_level_trace ids).count MergeEv.commit = 1 := by
  constructor
  · induction chunk with
    | nil => rfl
    | cons i rest ih => simpa [merge_worker_trace, commitAfterEachAgg] using ih
  · induction ids with
    | nil => rfl
    | cons i rest ih => simpa [sequential_level_trace, List.count_cons] using ih

/-! ### C10: the PathKey is not injective on name sequences -/

/-- C10: underscore concatenation conflates the distinct emitted name
sequences `["A_B"]` and `["A", "B"]`: both have PathKey `"A_B"`, and running
both records resolves the second record's `NAME_0` level to the division
created by the first record — no third row is ever inserted. -/
theorem claim_C10 :
    emittedNames underscoreNameRecord = ["A_B"] ∧
    emittedNames twoNameRecord = ["A", "B"] ∧
    emittedNames underscoreNameRecord ≠ emittedNames twoNameRecord ∧
    pathKey (emittedNames underscoreNameRecord) =
      pathKey (emittedNames twoNameRecord) ∧
    (runPipeline cfgRun [underscoreNameRecord, twoNameRecord]).db =
      [⟨1, "A_B", none, false, some 1, some 10⟩,
       ⟨2, "A", none, true, none, none⟩] := by
  decide

/-! ### C6: depth groups are antichains, produced deepest-first -/

/-- A defined depth survives any increase of the walk's fuel bound. -/
theorem depthOfAux_mono (db : List Row) :
    ∀ f1 f2 i d, f1 ≤ f2 → depthOfAux db f1 i = some d →
      depthOfAux db f2 i = some d := by
  intro f1
  induction f1 with
  | zero => intro f2 i d _ h; simp [depthOfAux] at h
  | succ f ih =>
    intro f2 i d hle h
    obtain ⟨f2', rfl⟩ : ∃ f2', f2 = f2' + 1 := ⟨f2 - 1, by omega⟩
    unfold depthOfAux at h ⊢
    cases hfind : db.find? (fun r => r.id = i) with
    | none => simp only [hfind] at h; exact absurd h (by simp)
    | some r =>
      simp only [hfind] at h ⊢
      cases hp : r.parent_id with
      | none => simp only [hp] at h ⊢; exact h
      | some p =>
        simp only [hp] at h ⊢
        obtain ⟨d', hd', rfl⟩ := Option.map_eq_some'.1 h
        rw [ih f2' p d' (by omega) hd']
        rfl

/-- The CTE depth of a division strictly extends its parent's depth. -/
theorem depthOf_parent (db : List Row) (i p n : Nat)
    (hd : depthOf db i = some n) (hp : parentOf db i = some p) :
    1 ≤ n ∧ depthOf db p = some (n - 1) := by
  unfold depthOf depthOfAux at hd
  unfold parentOf at hp
  cases hfind : db.find? (fun r => r.id = i) with
  | none => simp only [hfind] at hd; exact absurd hd (by simp)
  | some r =>
    simp only [hfind] at hd hp
    cases hpp : r.parent_id with
    | none => simp only [hpp] at hp; exact absurd hp (by simp)
    | some p' =>
      simp only [hpp] at hd hp
      obtain rfl : p' = p := by simpa using hp
      obtain ⟨d', hd', rfl⟩ := Option.map_eq_some'.1 hd
      refine ⟨by omega, ?_⟩
      have := depthOfAux_mono db db.length (db.length + 1) p' d' (by omega) hd'
      simpa [depthOf] using this

/-- Walking `k + 1` parent steps from a division of depth `n` lands on a
division of depth `n - (k + 1)`. -/
theorem ancChain_depth (db : List Row) :
    ∀ k b a n, ancChain db b (k + 1) = some a → depthOf db b = some n →
      ∃ m, depthOf db a = some m ∧ m + (k + 1) = n := by
  intro k
  induction k with
  | zero =>
    intro b a n hc hd
    unfold ancChain at hc
    cases hp : parentOf db b with
    | none => simp only [hp] at hc; exact absurd hc (by simp)
    | some p =>
      simp only [hp] at hc
      unfold ancChain at hc
      obtain rfl : p = a := by simpa using hc
      obtain ⟨h1, h2⟩ := depthOf_parent db b p n hd hp
      exact ⟨n - 1, h2, by omega⟩
  | succ k ih =>
    intro b a n hc hd
    unfold ancChain at hc
    cases hp : parentOf db b with
    | none => simp only [hp] at hc; exact absurd hc (by simp)
    | some p =>
      simp only [hp] at hc
      obtain ⟨h1, h2⟩ := depthOf_parent db b p n hd hp
      obtain ⟨m, hm, hmk⟩ := ih p a (n - 1) hc h2
      exact ⟨m, hm, by omega⟩

/-- A strict ancestor has a strictly smaller CTE depth. -/
theorem isAncestor_depth_lt (db : List Row) (a b da dep : Nat)
    (hanc : isAncestor db a b) (hda : depthOf db a = some da)
    (hdb : depthOf db b = some dep) : da < dep := by
  obtain ⟨k, hc⟩ := hanc
  obtain ⟨m, hm, hmk⟩ := ancChain_depth db k b a dep hc hdb
  rw [hda] at hm
  injection hm with hm
  omega

/-- Every member of a scheduled depth group has that group's depth. -/
theorem mem_depthGroups (db : List Row) (d : Nat) (g : List Row)
    (hg : (d, g) ∈ depthGroups db) (r : Row) (hr : r ∈ g) :
    depthOf db r.id = some d := by
  unfold depthGroups at hg
  rw [List.mem_filterMap] at hg
  obtain ⟨d0, _, heq⟩ := hg
  unfold depthGroupAt at heq
  by_cases he :
      ((schedTargets db).filter (fun r => depthOf db r.id = some d0)).isEmpty
  · rw [if_pos he] at heq; exact absurd heq (by simp)
  · rw [if_neg he] at heq
    obtain ⟨rfl, rfl⟩ : d0 = d ∧
        (schedTargets db).filter (fun r => depthOf db r.id = some d0) = g := by
      injection heq with h; exact ⟨congrArg Prod.fst h, congrArg Prod.snd h⟩
    have := (List.mem_filter.1 hr).2
    exact of_decide_eq_true this

/-- The keys produced by `depthGroupAt` are the depths they were asked for. -/
theorem depthGroupAt_fst (db : List Row) (d : Nat) (x : Nat × List Row)
    (hx : depthGroupAt db d = some x) : x.1 = d := by
  unfold depthGroupAt at hx
  by_cases he :
      ((schedTargets db).filter (fun r => depthOf db r.id = some d)).isEmpty
  · rw [if_pos he] at hx; exact absurd hx (by simp)
  · rw [if_neg he] at hx
    obtain rfl : (d, _) = x := by injection hx
    rfl

/-- `filterMap` with a key-preserving function keeps a strictly descending
key list strictly descending. -/
theorem pairwise_filterMap_fst (f : Nat → Option (Nat × List Row))
    (hf : ∀ d x, f d = some x → x.1 = d) (l : List Nat) :
    l.Pairwise (· > ·) → ((l.filterMap f).map Prod.fst).Pairwise (· > ·) := by
  induction l with
  | nil => intro _; simp
  | cons a t ih =>
    intro hl
    rw [List.pairwise_cons] at hl
    obtain ⟨ha, ht⟩ := hl
    rw [List.filterMap_cons]
    cases hfa : f a with
    | none => exact ih ht
    | some x =>
      rw [List.map_cons, List.pairwise_cons]
      refine ⟨?_, ih ht⟩
      intro y hy
      rw [List.mem_map] at hy
      obtain ⟨z, hz, rfl⟩ := hy
      rw [List.mem_filterMap] at hz
      obtain ⟨d0, hd0, hzd⟩ := hz
      have h1 := hf d0 z hzd
      have h2 := hf a x hfa
      have h3 := ha d0 hd0
      omega

/-- C6: for any table shape, two divisions placed in the same depth group by
`get_non_leaf_divisions_by_depth` are never in an ancestor/descendant
relationship, and the groups are produced in strictly descending depth
order. -/
theorem claim_C6 (db : List Row) (d : Nat) (g : List Row)
    (hg : (d, g) ∈ depthGroups db) (a b : Row) (ha : a ∈ g) (hb : b ∈ g) :
    ¬ isAncestor db a.id b.id ∧
    ((depthGroups db).map Prod.fst).Pairwise (· > ·) := by
  constructor
  · intro hanc
    have hda := mem_depthGroups db d g hg a ha
    have hdb := mem_depthGroups db d g hg b hb
    have := isAncestor_depth_lt db a.id b.id d d hanc hda hdb
    omega
  · refine pairwise_filterMap_fst (depthGroupAt db) (depthGroupAt_fst db) _ ?_
    rw [List.pairwise_reverse]
    exact List.pairwise_lt_range _

/-- A four-row table: a root, two internal children of the root at depth 1
and a leaf at depth 2. -/
def schedDb : List Row :=
  [⟨1, "r", none, true, none, none⟩,
   ⟨2, "a", some 1, true, none, none⟩,
   ⟨3, "b", some 2, false, none, some 5⟩,
   ⟨4, "c", some 1, true, none, none⟩]

/-- C6 witness: in `schedDb` the depth-1 group holds ids 2 and 4, which are
not ancestor-related, and the group keys descend strictly. -/
theorem claim_C6_witness :
    ¬ isAncestor schedDb 2 4 ∧
    ((depthGroups schedDb).map Prod.fst).Pairwise (· > ·) :=
  claim_C6 schedDb 1
    [⟨2, "a", some 1, true, none, none⟩, ⟨4, "c", some 1, true, none, none⟩]
    (by decide)
    ⟨2, "a", some 1, true, none, none⟩ ⟨4, "c", some 1, true, none, none⟩
    (by decide) (by decide)

/-! ### C7 / C8 / C2: the aggregator's fallback, no-op and storage policy -/

/-- C7: for any spatial primitives and any table, (a) a division none of whose
children carries geometry is a benign no-op — nothing is written and no error
is raised (`rowcount = 0`, reported as `false`); (b) when the fast
`ST_CoverageUnion` path fails, the robust path (per-child repair inside
`ST_Union(ST_MakeValid(...))`) is attempted and its validated result is
stored, so a fast-path failure never surfaces as an error by itself. -/
theorem claim_C7 (ops : GeomOps) (db : List Row) (i : Nat) :
    (childGeoms db i = [] → calculate_merged_geometry ops db i = (db, false)) ∧
    (childGeoms db i ≠ [] → ops.coverageUnion (childGeoms db i) = none →
      calculate_merged_geometry ops db i =
        (setRowGeom db i (ops.validate (ops.unionMakeValid (childGeoms db i))),
         db.any (fun r => r.id = i))) := by
  constructor
  · intro h
    simp [calculate_merged_geometry, mergedGeom, h]
  · intro h hfail
    simp [calculate_merged_geometry, mergedGeom, List.isEmpty_iff, h, hfail]

/-- Spatial primitives where the fast union always succeeds with the sum of
the child tokens, repair is the identity, the point count is the token itself
and simplification halves the token. -/
def opsSum : GeomOps :=
  ⟨fun cs => some (cs.foldl (· + ·) 0), fun cs => cs.foldl (· + ·) 0,
   fun g => g, fun g => g, fun _ g => g / 2⟩

/-- `opsSum` with a failing fast path. -/
def opsSumFail : GeomOps :=
  { opsSum with coverageUnion := fun _ => none }

/-- A parent (id 1, no geometry) with one child holding geometry token 5000. -/
def aggDb : List Row :=
  [⟨1, "P", none, true, none, none⟩,
   ⟨2, "c", some 1, false, some 9, some 5000⟩]

/-- C7 witness: the benign no-op on an empty table, and the robust fallback
storing the repaired union on `aggDb` when the fast path fails. -/
theorem claim_C7_witness :
    calculate_merged_geometry opsSum ([] : List Row) 1 = ([], false) ∧
    calculate_merged_geometry opsSumFail aggDb 1 =
      (setRowGeom aggDb 1
        (opsSumFail.validate (opsSumFail.unionMakeValid (childGeoms aggDb 1))),
       aggDb.any (fun r => r.id = 1)) :=
  ⟨(claim_C7 opsSum [] 1).1 rfl,
   (claim_C7 opsSumFail aggDb 1).2 (by decide) rfl⟩

/-- C8: a division that no row references as parent (the data-model invariant
for `has_children = false`) is left completely unchanged by the aggregator —
its stored geometry is never overwritten, even if it was erroneously
scheduled. -/
theorem claim_C8 (ops : GeomOps) (db : List Row) (i : Nat) (r0 : Row)
    (_hmem : r0 ∈ db) (_hid : r0.id = i) (_hleaf : r0.has_children = false)
    (hinv : ∀ r ∈ db, r.parent_id ≠ some i) :
    calculate_merged_geometry ops db i = (db, false) := by
  have hempty : childGeoms db i = [] := by
    unfold childGeoms
    rw [List.filter_eq_nil_iff.2 (fun r hr => by simpa using hinv r hr)]
    rfl
  exact (claim_C7 ops db i).1 hempty

/-- A single stored leaf with geometry, scheduled erroneously. -/
def leafDb : List Row := [⟨1, "L", none, false, none, some 5⟩]

/-- C8 witness: aggregating the childless leaf of `leafDb` changes nothing. -/
theorem claim_C8_witness :
    calculate_merged_geometry opsSum leafDb 1 = (leafDb, false) :=
  claim_C8 opsSum leafDb 1 ⟨1, "L", none, false, none, some 5⟩
    (by decide) rfl rfl (by decide)

/-- C2 counterexample: on `aggDb` the merged result has point count 5000,
far above a threshold of 100, and the spec-modelled aggregator would store
the simplified merge 2500; the code stores the raw (validated) merge 5000 —
`calculate_merged_geometry` applies no simplification whatsoever
("Rule 1: geom is sacred", precalculate-geometries.py lines 111-112). -/
theorem claim_C2_counterexample :
    (calculate_merged_geometry opsSum aggDb 1).1 =
      [⟨1, "P", none, true, none, some 5000⟩,
       ⟨2, "c", some 1, false, some 9, some 5000⟩] ∧
    100 < opsSum.npoints 5000 ∧
    specStoredGeometry opsSum 100 (fun _ => 3) (childGeoms aggDb 1) =
      some 2500 ∧
    (5000 : Geom) ≠ 2500 := by
  decide

/-- C2 (amended): the stored geometry of an aggregated division is the raw
validated merge, independent of the simplification and point-count
primitives: two runs whose primitives agree on union, robust union and
repair — but differ arbitrarily in `npoints` and tolerance-keyed
simplification — store identical results.  (The separate
`run_coverage_simplification` pass only rewrites the derived simplified
display columns via `simplify_coverage_siblings`, never the `geom` column.) -/
theorem claim_C2 (ops ops' : GeomOps) (db : List Row) (i : Nat)
    (h1 : ops.coverageUnion = ops'.coverageUnion)
    (h2 : ops.unionMakeValid = ops'.unionMakeValid)
    (h3 : ops.validate = ops'.validate) :
    calculate_merged_geometry ops db i = calculate_merged_geometry ops' db i := by
  unfold calculate_merged_geometry mergedGeom
  rw [h1, h2, h3]

/-- C2 witness: `opsSum` against a copy with scrambled simplification and
point-count primitives. -/
theorem claim_C2_witness :
    calculate_merged_geometry opsSum aggDb 1 =
      calculate_merged_geometry
        { opsSum with npoints := fun _ => 0, simplifyTol := fun _ g => g + 1 }
        aggDb 1 :=
  claim_C2 opsSum
    { opsSum with npoints := fun _ => 0, simplifyTol := fun _ g => g + 1 }
    aggDb 1 rfl rfl rfl

end TrackRegions
